import Mathlib

/-
Verification of the BullShark play-to-earn reward ledger and tournament engine.

The development embeds the reward-accounting core of the backend in Lean:
JavaScript numbers are modelled as exact rationals (ℚ), JavaScript objects
as insertion-ordered association lists, nullable / optional request fields
as Option, and handlers that can reject as functions returning an outcome
together with the (possibly unchanged) state.  All external collaborators
(RPC balance lookups, vault reads, transaction construction, persistence)
are passed in as parameters; the embedded functions cover exactly the pure
state transitions the source performs.

Three source variants are embedded where they differ:
  * the simulated one-phase claim handler (immediate settlement with the
    split-on-partial-claim walk),
  * the transaction-building two-phase claim handlers (build phase without
    ledger mutation, confirm phase with the simple non-splitting walk),
  * the tournament engine (registration, score recording, tiered prizes).
-/

attribute [local semireducible] Rat.sub Rat.add Rat.mul Rat.inv Rat.ofScientific

/-- Conversion rate of the direct-earn variant: 3000 points = 1 CHUM. -/
def POINTS_PER_CHUM : ℚ := 3000

/-- Minimum token balance a wallet must hold to earn or claim. -/
def MIN_HOLD_REQUIREMENT : ℚ := 25000

/-- One entry of a player's earn history.  Optional bookkeeping fields are
absent (`none` / `false`) until the corresponding event sets them. -/
structure EarnEntry where
  sessionId : String
  points : ℚ
  chumEarned : ℚ
  timestamp : ℕ
  claimed : Bool
  claimedAt : Option ℕ
  claimId : Option String
  signature : Option String
  claimedAmount : Option ℚ
  remainingAmount : Option ℚ
  isRemainder : Bool
  originalSessionId : Option String
  tournamentPrize : Bool
  tournamentName : Option String
  rank : Option ℕ
  deriving DecidableEq, Repr

/-- A fresh unclaimed entry as pushed by the record-game handler. -/
def freshEarnEntry (sessionId : String) (points chumEarned : ℚ) (now : ℕ) : EarnEntry :=
  { sessionId := sessionId
    points := points
    chumEarned := chumEarned
    timestamp := now
    claimed := false
    claimedAt := none
    claimId := none
    signature := none
    claimedAmount := none
    remainingAmount := none
    isRemainder := false
    originalSessionId := none
    tournamentPrize := false
    tournamentName := none
    rank := none }

/-- Per-wallet player record. -/
structure PlayerRecord where
  wallet : String
  totalEarned : ℚ
  totalClaimed : ℚ
  pendingRewards : ℚ
  balance : ℚ
  gamesPlayed : ℕ
  lastGameAt : Option ℕ
  lastClaimAt : Option ℕ
  verifiedAt : Option ℕ
  earnHistory : List EarnEntry
  deriving DecidableEq, Repr

/-- A zeroed record as created lazily on first access. -/
def freshPlayerRecord (wallet : String) : PlayerRecord :=
  { wallet := wallet
    totalEarned := 0
    totalClaimed := 0
    pendingRewards := 0
    balance := 0
    gamesPlayed := 0
    lastGameAt := none
    lastClaimAt := none
    verifiedAt := none
    earnHistory := [] }

/-- The record-game earn operation of the direct-earn variant: rejects a
missing or below-threshold score and an under-collateralised wallet,
otherwise credits `points / POINTS_PER_CHUM`, bumps the counters and
appends a fresh unclaimed history entry. -/
def recordGameEarn (r : PlayerRecord) (points bal : ℚ) (sessionId : String)
    (now : ℕ) : Option PlayerRecord :=
  if points = 0 then none
  else if points < POINTS_PER_CHUM then none
  else if bal < MIN_HOLD_REQUIREMENT then none
  else
    let chumEarned := points / POINTS_PER_CHUM
    some { r with
      totalEarned := r.totalEarned + chumEarned
      pendingRewards := r.pendingRewards + chumEarned
      gamesPlayed := r.gamesPlayed + 1
      lastGameAt := some now
      balance := bal
      earnHistory := r.earnHistory ++ [freshEarnEntry sessionId points chumEarned now] }

/-- Tournament-prize crediting performed by the stop handler for each
winner with a nonzero prize: adds the prize to earned and pending and
appends a tournament-tagged unclaimed entry (no games-played bump). -/
def creditPrize (r : PlayerRecord) (prize bestScore : ℚ) (tid tname : String)
    (rank : ℕ) (now : ℕ) : PlayerRecord :=
  { r with
    totalEarned := r.totalEarned + prize
    pendingRewards := r.pendingRewards + prize
    earnHistory := r.earnHistory ++
      [{ freshEarnEntry ("tournament_" ++ tid) bestScore prize now with
          tournamentPrize := true
          tournamentName := some tname
          rank := some rank }] }

/-- One successful earning event: either a scored game or a settled prize. -/
inductive EarnOp where
  | game (points bal : ℚ) (sessionId : String) (now : ℕ)
  | prize (amount bestScore : ℚ) (tid tname : String) (rank : ℕ) (now : ℕ)

/-- Amount the operation credits to the ledger. -/
def EarnOp.credit : EarnOp → ℚ
  | .game points _ _ _ => points / POINTS_PER_CHUM
  | .prize amount _ _ _ _ _ => amount

/-- Apply one earn operation; a rejected game earns nothing and is `none`. -/
def applyEarnOp (r : PlayerRecord) : EarnOp → Option PlayerRecord
  | .game points bal sessionId now => recordGameEarn r points bal sessionId now
  | .prize amount bestScore tid tname rank now =>
      some (creditPrize r amount bestScore tid tname rank now)

/-- Apply a sequence of earn operations, failing if any one is rejected. -/
def applyEarnOps (r : PlayerRecord) : List EarnOp → Option PlayerRecord
  | [] => some r
  | op :: ops =>
    match applyEarnOp r op with
    | none => none
    | some r1 => applyEarnOps r1 ops

/-- Sum of the values of the unclaimed entries of a history. -/
def unclaimedSum (l : List EarnEntry) : ℚ :=
  ((l.filter fun e => e.claimed = false).map fun e => e.chumEarned).sum

/-- Fully mark an entry claimed as the simulated one-phase handler does
(sets claimed, claimedAt and claimId; no signature field). -/
def markFullSim (claimId : String) (now : ℕ) (e : EarnEntry) : EarnEntry :=
  { e with claimed := true, claimedAt := some now, claimId := some claimId }

/-- Mark a partially covered entry claimed, recording the claimed part and
the unclaimed residual, as the split branch of the one-phase handler does. -/
def splitOriginal (claimId : String) (now : ℕ) (rem : ℚ) (e : EarnEntry) : EarnEntry :=
  { e with
    claimed := true
    claimedAt := some now
    claimId := some claimId
    claimedAmount := some rem
    remainingAmount := some (e.chumEarned - rem) }

/-- The synthesized unclaimed entry for the residual of a split, pushed to
the end of the history: proportionally floored points, the residual value,
the original timestamp, and the remainder markers. -/
def remainderEntry (rem : ℚ) (e : EarnEntry) : EarnEntry :=
  { sessionId := e.sessionId ++ "_remaining"
    points := (Rat.floor ((e.chumEarned - rem) / e.chumEarned * e.points) : ℚ)
    chumEarned := e.chumEarned - rem
    timestamp := e.timestamp
    claimed := false
    claimedAt := none
    claimId := none
    signature := none
    claimedAmount := none
    remainingAmount := none
    isRemainder := true
    originalSessionId := some e.sessionId
    tournamentPrize := false
    tournamentName := none
    rank := none }

/-- The mark-claimed walk of the simulated one-phase claim handler.
Walks the history in insertion order; a skipped entry (already claimed, or
nothing left to mark) is passed through; an unclaimed entry covered by the
remaining amount is fully marked; an unclaimed entry exceeding it is split,
the residual entry is appended at the very end of the history, and the walk
stops.  Returns the new history and the unmarked remainder of the amount. -/
def markClaimedSplitWalk (claimId : String) (now : ℕ) :
    List EarnEntry → ℚ → List EarnEntry × ℚ
  | [], remaining => ([], remaining)
  | e :: rest, remaining =>
    if e.claimed = false ∧ 0 < remaining then
      if e.chumEarned ≤ remaining then
        let res := markClaimedSplitWalk claimId now rest (remaining - e.chumEarned)
        (markFullSim claimId now e :: res.1, res.2)
      else
        (splitOriginal claimId now remaining e :: (rest ++ [remainderEntry remaining e]), 0)
    else
      let res := markClaimedSplitWalk claimId now rest remaining
      (e :: res.1, res.2)

/-- Outcome of the simulated one-phase claim handler. -/
inductive SimOutcome where
  | noPlayerRecord
  | noPending
  | insufficientBalance
  | insufficientPending
  | claimed (amount : ℚ)
  deriving DecidableEq, Repr

/-- The simulated one-phase claim handler: rejects a missing record, an
empty pending balance, an under-collateralised wallet, and a request for
more than the pending balance; otherwise resolves the amount (requested
positive amount as-is, else the full pending balance), settles the totals
and runs the split walk.  Rejections leave the record untouched. -/
def claimRewardsSim (rOpt : Option PlayerRecord) (claimAmount : Option ℚ)
    (bal : ℚ) (claimId : String) (now : ℕ) : SimOutcome × Option PlayerRecord :=
  match rOpt with
  | none => (.noPlayerRecord, none)
  | some r =>
    if r.pendingRewards ≤ 0 then (.noPending, some r)
    else if bal < MIN_HOLD_REQUIREMENT then (.insufficientBalance, some r)
    else
      match claimAmount with
      | some a =>
        if 0 < a then
          if r.pendingRewards < a then (.insufficientPending, some r)
          else (.claimed a, some (settleSim r a claimId now))
        else (.claimed r.pendingRewards, some (settleSim r r.pendingRewards claimId now))
      | none => (.claimed r.pendingRewards, some (settleSim r r.pendingRewards claimId now))
where
  /-- The mutation block of the handler: move the amount from pending to
  claimed, stamp the claim time and run the split walk over the history. -/
  settleSim (r : PlayerRecord) (amount : ℚ) (claimId : String) (now : ℕ) : PlayerRecord :=
    { r with
      totalClaimed := r.totalClaimed + amount
      pendingRewards := r.pendingRewards - amount
      lastClaimAt := some now
      earnHistory := (markClaimedSplitWalk claimId now r.earnHistory amount).1 }

/-- The mark-claimed walk of the confirm-claim handlers: same FIFO walk but
an unclaimed entry exceeding the remaining amount stops the walk without
being split (the simple variant); marked entries also record the on-chain
signature. -/
def markClaimedWalk (claimId sig : String) (now : ℕ) :
    List EarnEntry → ℚ → List EarnEntry × ℚ
  | [], remaining => ([], remaining)
  | e :: rest, remaining =>
    if e.claimed = false ∧ 0 < remaining then
      if e.chumEarned ≤ remaining then
        let res := markClaimedWalk claimId sig now rest (remaining - e.chumEarned)
        ({ e with claimed := true, claimedAt := some now, claimId := some claimId,
                  signature := some sig } :: res.1, res.2)
      else (e :: rest, remaining)
    else
      let res := markClaimedWalk claimId sig now rest remaining
      (e :: res.1, res.2)

/-- The ledger mutation of the confirm-claim handlers, run only after the
transaction is confirmed: a falsy (absent or zero) claim amount defaults to
the full pending balance; the amount is added to the claimed total, pending
is decremented floored at zero, and the simple walk marks the history. -/
def confirmClaimSettle (r : PlayerRecord) (claimAmount : Option ℚ)
    (claimId sig : String) (now : ℕ) : PlayerRecord :=
  let amount :=
    match claimAmount with
    | some a => if a = 0 then r.pendingRewards else a
    | none => r.pendingRewards
  { r with
    totalClaimed := r.totalClaimed + amount
    pendingRewards := max 0 (r.pendingRewards - amount)
    lastClaimAt := some now
    earnHistory := (markClaimedWalk claimId sig now r.earnHistory amount).1 }

/-- Claim-amount resolution of the transaction-building claim handlers: a
provided positive amount within the pending balance is used as-is, anything
else falls back to the full pending balance. -/
def amountToClaimTx (claimAmount : Option ℚ) (pending : ℚ) : ℚ :=
  match claimAmount with
  | some a => if 0 < a ∧ a ≤ pending then a else pending
  | none => pending

/-- Outcome of the transaction-building claim handler (build phase). -/
inductive BuildOutcome where
  | authorityNotConfigured
  | noPending
  | insufficientBalance
  | vaultNotFunded
  | vaultInsufficient
  | built (amount : ℚ)
  deriving DecidableEq, Repr

/-- The build phase of the two-phase claim workflow: checks the authority,
the record and its pending balance, the wallet's current holdings, resolves
the claim amount, checks the vault against the raw transfer amount and
builds the transaction.  No path touches the player record. -/
def claimBuildTx (hasAuthority : Bool) (rOpt : Option PlayerRecord)
    (claimAmount : Option ℚ) (bal : ℚ) (vaultRaw : Option ℤ) (decimals : ℕ) :
    BuildOutcome × Option PlayerRecord :=
  if hasAuthority = false then (.authorityNotConfigured, rOpt)
  else
    match rOpt with
    | none => (.noPending, none)
    | some r =>
      if r.pendingRewards ≤ 0 then (.noPending, some r)
      else if bal < MIN_HOLD_REQUIREMENT then (.insufficientBalance, some r)
      else
        let amount := amountToClaimTx claimAmount r.pendingRewards
        let rawAmount : ℤ := Rat.floor (amount * (10 : ℚ) ^ decimals)
        match vaultRaw with
        | none => (.vaultNotFunded, some r)
        | some v =>
          if v < rawAmount then (.vaultInsufficient, some r)
          else (.built amount, some r)

/-- Per-wallet tournament score state. -/
structure ScoreData where
  bestScore : ℚ
  gamesPlayed : ℕ
  allScores : List (ℚ × ℕ)
  lastGameAt : Option ℕ
  deriving DecidableEq, Repr

/-- A tournament registration (time and balance observed at registration). -/
structure Registration where
  registeredAt : ℕ
  balance : ℚ
  deriving DecidableEq, Repr

/-- The tournament instance held in the process-wide slot. -/
structure Tournament where
  id : String
  name : String
  active : Bool
  startTime : ℕ
  endTime : ℕ
  durationHours : ℕ
  prizePool : ℚ
  registrations : List (String × Registration)
  scores : List (String × ScoreData)
  createdAt : ℕ
  deriving DecidableEq, Repr

/-- Key assignment with JavaScript object semantics: replace an existing
binding in place, or append a new binding at the end (insertion order). -/
def setKey {α : Type} (l : List (String × α)) (k : String) (v : α) : List (String × α) :=
  match l with
  | [] => [(k, v)]
  | (k1, v1) :: rest => if k1 = k then (k, v) :: rest else (k1, v1) :: setKey rest k v

/-- Record a tournament score: a no-op returning `false` when there is no
active tournament, the wallet is not registered, or the tournament has
expired; otherwise bumps the wallet's games counter and timestamp, appends
the score, keeps the best score, and bounds the score log to the last 100. -/
def recordTournamentScore (cur : Option Tournament) (wallet : String)
    (points : ℚ) (now : ℕ) : Bool × Option Tournament :=
  match cur with
  | none => (false, none)
  | some t =>
    if t.active = false then (false, some t)
    else if (t.registrations.lookup wallet).isSome = false then (false, some t)
    else if t.endTime < now then (false, some t)
    else
      let sd0 := (t.scores.lookup wallet).getD
        { bestScore := 0, gamesPlayed := 0, allScores := [], lastGameAt := none }
      let sd1 := { sd0 with
        gamesPlayed := sd0.gamesPlayed + 1
        lastGameAt := some now
        allScores := sd0.allScores ++ [(points, now)] }
      let sd2 := if sd1.bestScore < points then { sd1 with bestScore := points } else sd1
      let sd3 :=
        if 100 < sd2.allScores.length then
          { sd2 with allScores := sd2.allScores.drop (sd2.allScores.length - 100) }
        else sd2
      (true, some { t with scores := setKey t.scores wallet sd3 })

/-- Outcome of the tournament start handler. -/
inductive StartOutcome where
  | alreadyActive
  | started (t : Tournament)
  deriving DecidableEq, Repr

/-- The tournament the start handler creates: falsy request fields fall back
to the defaults (24 hours, 769230 pool, the stock name); registrations and
scores start empty and the end time is the start plus the duration. -/
def newTournament (name : Option String) (duration : Option ℕ)
    (prizePool : Option ℚ) (now : ℕ) : Tournament :=
  let durationHours := match duration with
    | some d => if d = 0 then 24 else d
    | none => 24
  let pool := match prizePool with
    | some p => if p = 0 then 769230 else p
    | none => 769230
  { id := "tournament_" ++ toString now
    name := match name with
      | some n => if n = "" then "BullShark Weekly Tournament" else n
      | none => "BullShark Weekly Tournament"
    active := true
    startTime := now
    endTime := now + durationHours * 3600000
    durationHours := durationHours
    prizePool := pool
    registrations := []
    scores := []
    createdAt := now }

/-- The tournament start handler: rejects whenever the slot holds an active
tournament (expiry of its end time does not matter), otherwise installs a
fresh tournament. -/
def tournamentStart (cur : Option Tournament) (name : Option String)
    (duration : Option ℕ) (prizePool : Option ℚ) (now : ℕ) :
    StartOutcome × Option Tournament :=
  match cur with
  | some t =>
    if t.active = true then (.alreadyActive, some t)
    else
      let nt := newTournament name duration prizePool now
      (.started nt, some nt)
  | none =>
    let nt := newTournament name duration prizePool now
    (.started nt, some nt)

/-- Masked wallet display used by the leaderboards. -/
def maskWallet (w : String) : String :=
  w.take 4 ++ "..." ++ w.takeRight 4

/-- A leaderboard row before ranking. -/
structure TopEntry where
  wallet : String
  fullWallet : String
  bestScore : ℚ
  gamesPlayed : ℕ
  lastGameAt : Option ℕ
  deriving DecidableEq, Repr

/-- A leaderboard row with its rank. -/
structure RankedEntry where
  rank : ℕ
  wallet : String
  fullWallet : String
  bestScore : ℚ
  gamesPlayed : ℕ
  lastGameAt : Option ℕ
  deriving DecidableEq, Repr

/-- Stable insertion of a row into a best-score-descending list: the row
goes after every earlier row with an equal or higher score, matching the
stable sort the source relies on. -/
def insertDesc (x : TopEntry) : List TopEntry → List TopEntry
  | [] => [x]
  | y :: ys => if y.bestScore < x.bestScore then x :: y :: ys else y :: insertDesc x ys

/-- Stable sort by best score descending. -/
def sortScoresDesc : List TopEntry → List TopEntry
  | [] => []
  | x :: xs => insertDesc x (sortScoresDesc xs)

/-- Attach ranks `i + 1` in list order. -/
def rankify : ℕ → List TopEntry → List RankedEntry
  | _, [] => []
  | i, e :: rest =>
    { rank := i + 1, wallet := e.wallet, fullWallet := e.fullWallet,
      bestScore := e.bestScore, gamesPlayed := e.gamesPlayed,
      lastGameAt := e.lastGameAt } :: rankify (i + 1) rest

/-- The leaderboard of a tournament: the score map in insertion order,
masked and sorted stably by best score descending, cut to the limit and
ranked. -/
def getTopScores (t : Tournament) (limit : ℕ) : List RankedEntry :=
  rankify 0 ((sortScoresDesc (t.scores.map fun kv =>
    { wallet := maskWallet kv.1, fullWallet := kv.1, bestScore := kv.2.bestScore,
      gamesPlayed := kv.2.gamesPlayed, lastGameAt := kv.2.lastGameAt })).take limit)

/-- A prize-table row of the computed results. -/
structure Winner where
  rank : ℕ
  wallet : String
  walletShort : String
  bestScore : ℚ
  gamesPlayed : ℕ
  prize : ℚ
  deriving DecidableEq, Repr

/-- The computed result set of a tournament. -/
structure TournamentResults where
  totalPlayers : ℕ
  totalDistributed : ℚ
  prizePool : ℚ
  winners : List Winner
  deriving DecidableEq, Repr

/-- The prize schedule: fixed pool fractions floored per rank bucket for the
top 100, a flat fraction for ranks within the top three quarters of the
field, and a participation amount of at least one unit for the rest. -/
def prizeForRank (pool : ℚ) (totalPlayers rank : ℕ) : ℚ :=
  if rank = 1 then (Rat.floor (pool * 0.195) : ℚ)
  else if rank = 2 then (Rat.floor (pool * 0.104) : ℚ)
  else if rank = 3 then (Rat.floor (pool * 0.065) : ℚ)
  else if rank = 4 then (Rat.floor (pool * 0.039) : ℚ)
  else if rank = 5 then (Rat.floor (pool * 0.026) : ℚ)
  else if rank ≤ 10 then (Rat.floor (pool * 0.013) : ℚ)
  else if rank ≤ 25 then (Rat.floor (pool * 0.0052) : ℚ)
  else if rank ≤ 50 then (Rat.floor (pool * 0.00325) : ℚ)
  else if rank ≤ 100 then (Rat.floor (pool * 0.00195) : ℚ)
  else if (rank : ℤ) ≤ Rat.ceil ((totalPlayers : ℚ) * 0.75) then
    (Rat.floor (pool * 0.00065) : ℚ)
  else max 1 (Rat.floor (pool * 0.0001) : ℚ)

/-- The winners table built over the ranked rows with the running rank. -/
def buildWinners (pool : ℚ) (total : ℕ) : ℕ → List RankedEntry → List Winner
  | _, [] => []
  | rank, e :: rest =>
    { rank := rank, wallet := e.fullWallet, walletShort := e.wallet,
      bestScore := e.bestScore, gamesPlayed := e.gamesPlayed,
      prize := prizeForRank pool total rank } :: buildWinners pool total (rank + 1) rest

/-- Compute the final standings and prizes of a tournament. -/
def calculateTournamentResults (t : Tournament) : TournamentResults :=
  let ranked := getTopScores t 99999
  let winners := buildWinners t.prizePool ranked.length 1 ranked
  { totalPlayers := ranked.length
    totalDistributed := (winners.map fun w => w.prize).sum
    prizePool := t.prizePool
    winners := winners }

/-- The record-game handler of the tournament variant: after the presence
validation it always bumps the player's games counter and last-game time,
attempts a tournament score only when a tournament is active, unexpired and
the wallet registered, and never touches the reward fields.  Returns the
updated record, the updated tournament slot and the accepted flag. -/
def recordGameTournamentVariant (r : PlayerRecord) (wallet : String)
    (points : ℚ) (finalScore : Option ℚ) (cur : Option Tournament) (now : ℕ) :
    Option (PlayerRecord × Option Tournament × Bool) :=
  if wallet = "" ∨ points = 0 then none
  else
    let score := match finalScore with
      | some s => if s = 0 then points else s
      | none => points
    let r1 := { r with gamesPlayed := r.gamesPlayed + 1, lastGameAt := some now }
    let step : Bool × Option Tournament :=
      match cur with
      | some t =>
        if t.active = true ∧ now ≤ t.endTime then
          if (t.registrations.lookup wallet).isSome then
            recordTournamentScore (some t) wallet score now
          else (false, some t)
        else (false, some t)
      | none => (false, none)
    some (r1, step.2, step.1)

/-- The three-entry history of the FIFO settlement example: value 5, oldest. -/
def entA : EarnEntry := freshEarnEntry "a" 5 5 1

/-- Second entry of the example: value 3. -/
def entB : EarnEntry := freshEarnEntry "b" 3 3 2

/-- Third entry of the example: value 8, newest. -/
def entC : EarnEntry := freshEarnEntry "c" 8 8 3

/-- The example record: earn entries of values 5, 3, 8 (oldest first). -/
def exRec : PlayerRecord :=
  { freshPlayerRecord "w" with
      totalEarned := 16
      pendingRewards := 16
      earnHistory := [entA, entB, entC] }

/-- The expected result of claiming 6 from the example record with the
split walk: entry one fully claimed, entry two split into claimed 1 and
residual 2, entry three untouched, a remainder entry of value 2 appended,
and 6 moved from pending to claimed. -/
def exRecAfter : PlayerRecord :=
  { exRec with
      totalClaimed := 6
      pendingRewards := 10
      lastClaimAt := some 7
      earnHistory :=
        [ markFullSim "cid" 7 entA,
          splitOriginal "cid" 7 1 entB,
          entC,
          remainderEntry 1 entB ] }

/-- A record with a single unclaimed entry of value 5 and pending 5. -/
def cRec : PlayerRecord :=
  { freshPlayerRecord "w" with
      totalEarned := 5
      pendingRewards := 5
      earnHistory := [freshEarnEntry "g" 5 5 1] }

/-- A record with pending 4, used against an over-request of 10. -/
def rbRec : PlayerRecord :=
  { freshPlayerRecord "w" with
      totalEarned := 4
      pendingRewards := 4
      earnHistory := [freshEarnEntry "g" 4 4 1] }

/-- A running tournament with one registered wallet and an end time of 5. -/
def wTour : Tournament :=
  { id := "t1"
    name := "wk"
    active := true
    startTime := 0
    endTime := 5
    durationHours := 1
    prizePool := 769230
    registrations := [("p1", { registeredAt := 0, balance := 25000 })]
    scores := [("p1", { bestScore := 40, gamesPlayed := 1, allScores := [(40, 1)], lastGameAt := some 1 })]
    createdAt := 0 }

/-- A one-player tournament with a prize pool of 4 units. -/
def tinyPoolTour : Tournament :=
  { id := "t2"
    name := "tiny"
    active := true
    startTime := 0
    endTime := 100
    durationHours := 1
    prizePool := 4
    registrations := [("w1", { registeredAt := 0, balance := 25000 })]
    scores := [("w1", { bestScore := 100, gamesPlayed := 1, allScores := [(100, 0)], lastGameAt := some 0 })]
    createdAt := 0 }

/-- The earn sequence of the end-to-end example: one scored game of 3000
points at balance 25000, then a tournament prize of 10. -/
def wOps : List EarnOp :=
  [ .game 3000 25000 "s1" 1, .prize 10 50 "t1" "wk" 1 2 ]

/-- The record the example earn sequence produces from a fresh record. -/
def wRec3 : PlayerRecord :=
  { freshPlayerRecord "w3" with
      totalEarned := 11
      pendingRewards := 11
      balance := 25000
      gamesPlayed := 1
      lastGameAt := some 1
      earnHistory :=
        [ freshEarnEntry "s1" 3000 1 1,
          { freshEarnEntry "tournament_t1" 50 10 2 with
              tournamentPrize := true
              tournamentName := some "wk"
              rank := some 1 } ] }

/-- The executable rational floor agrees with the mathematical floor. -/
theorem ratFloor_intFloor (q : ℚ) : (Rat.floor q : ℤ) = ⌊q⌋ := by
  rw [Rat.floor_def', Rat.floor_def]

/-- Claim C9: in the confirm phase an omitted (or zero) claim amount
defaults to the player's entire current pending balance: the full pending
balance is added to the claimed total, pending drops to zero, and the
mark-claimed walk runs over exactly that amount. -/
theorem confirm_defaults_to_full_pending (r : PlayerRecord) (claimId sig : String)
    (now : ℕ) (amtOpt : Option ℚ) (h : amtOpt = none ∨ amtOpt = some 0) :
    (confirmClaimSettle r amtOpt claimId sig now).totalClaimed
        = r.totalClaimed + r.pendingRewards ∧
    (confirmClaimSettle r amtOpt claimId sig now).pendingRewards = 0 ∧
    (confirmClaimSettle r amtOpt claimId sig now).earnHistory
        = (markClaimedWalk claimId sig now r.earnHistory r.pendingRewards).1 := by
  rcases h with h | h <;> subst h <;>
    refine ⟨rfl, ?_, rfl⟩ <;> simp [confirmClaimSettle]

/-- Witness for C9 at a concrete record. -/
theorem confirm_defaults_to_full_pending_witness :
    ((none : Option ℚ) = none ∨ (none : Option ℚ) = some 0) ∧
    ((confirmClaimSettle cRec none "c1" "s1" 9).totalClaimed
        = cRec.totalClaimed + cRec.pendingRewards ∧
     (confirmClaimSettle cRec none "c1" "s1" 9).pendingRewards = 0 ∧
     (confirmClaimSettle cRec none "c1" "s1" 9).earnHistory
        = (markClaimedWalk "c1" "s1" 9 cRec.earnHistory cRec.pendingRewards).1) :=
  ⟨Or.inl rfl, confirm_defaults_to_full_pending cRec "c1" "s1" 9 none (Or.inl rfl)⟩

/-- Counterexample to claim C6 as stated: after a confirmed claim of 5 the
ledger reflects the claim (totalClaimed 5, pending 0), yet a second confirm
call with the same wallet, claim id, signature and amount adds the amount
again, changing totalClaimed from 5 to 10. -/
theorem confirm_double_counts_explicit_amount :
    (confirmClaimSettle cRec (some 5) "c1" "s1" 2).totalClaimed = 5 ∧
    (confirmClaimSettle cRec (some 5) "c1" "s1" 2).pendingRewards = 0 ∧
    (confirmClaimSettle (confirmClaimSettle cRec (some 5) "c1" "s1" 2)
        (some 5) "c1" "s1" 3).totalClaimed = 10 := by
  refine ⟨by decide, by decide, by decide⟩

/-- Claim C6 (amended): the repeated confirmation leaves the totals
unchanged exactly in the claim-all case: when the prior confirmation
drained the pending balance to zero and the repeat omits the claim amount
(or passes the falsy 0), the effective amount is the current pending
balance 0 and both totals are preserved.  A repeat with an explicit
nonzero amount double-counts instead (see the counterexample). -/
theorem confirm_idempotent_when_drained (r : PlayerRecord) (claimId sig : String)
    (now : ℕ) (amtOpt : Option ℚ) (hp : r.pendingRewards = 0)
    (h : amtOpt = none ∨ amtOpt = some 0) :
    (confirmClaimSettle r amtOpt claimId sig now).totalClaimed = r.totalClaimed ∧
    (confirmClaimSettle r amtOpt claimId sig now).pendingRewards = r.pendingRewards := by
  rcases h with h | h <;> subst h <;>
    constructor <;> simp [confirmClaimSettle, hp]

/-- Witness for C6 at a concrete drained record. -/
theorem confirm_idempotent_when_drained_witness :
    ((confirmClaimSettle cRec (some 5) "c1" "s1" 2).pendingRewards = 0 ∧
      ((none : Option ℚ) = none ∨ (none : Option ℚ) = some 0)) ∧
    ((confirmClaimSettle (confirmClaimSettle cRec (some 5) "c1" "s1" 2) none "c1" "s1" 3).totalClaimed
        = (confirmClaimSettle cRec (some 5) "c1" "s1" 2).totalClaimed ∧
     (confirmClaimSettle (confirmClaimSettle cRec (some 5) "c1" "s1" 2) none "c1" "s1" 3).pendingRewards
        = (confirmClaimSettle cRec (some 5) "c1" "s1" 2).pendingRewards) :=
  ⟨⟨by decide, Or.inl rfl⟩,
    confirm_idempotent_when_drained _ "c1" "s1" 3 none (by decide) (Or.inl rfl)⟩

/-- Claim C7: a score submitted for a registered wallet after the
tournament's end time is rejected (`false`) and the tournament state —
including the wallet's best score, games counter and score log — is
returned unchanged. -/
theorem recordScore_after_end_noop (t : Tournament) (wallet : String)
    (pts : ℚ) (now : ℕ) (hreg : (t.registrations.lookup wallet).isSome = true)
    (hend : t.endTime < now) :
    recordTournamentScore (some t) wallet pts now = (false, some t) := by
  unfold recordTournamentScore
  cases h : t.active <;> simp [h, hreg, hend]

/-- Witness for C7: the running example tournament, ended at 5, scored at 10. -/
theorem recordScore_after_end_noop_witness :
    ((wTour.registrations.lookup "p1").isSome = true ∧ wTour.endTime < 10) ∧
    recordTournamentScore (some wTour) "p1" 90 10 = (false, some wTour) :=
  ⟨⟨by decide, by decide⟩,
    recordScore_after_end_noop wTour "p1" 90 10 (by decide) (by decide)⟩

/-- Claim C8: starting a tournament fails whenever the slot holds an
active tournament — also when its end time has already passed but it was
never stopped — and a successful start installs empty registration and
score maps.  The slot is a single option, so at most one tournament is
ever active. -/
theorem tournament_start_exclusive :
    (∀ (t : Tournament) (name : Option String) (dur : Option ℕ) (pool : Option ℚ) (now : ℕ),
        t.active = true →
        tournamentStart (some t) name dur pool now = (.alreadyActive, some t)) ∧
    (∀ (t : Tournament) (name : Option String) (dur : Option ℕ) (pool : Option ℚ) (now : ℕ),
        t.active = true → t.endTime < now →
        tournamentStart (some t) name dur pool now = (.alreadyActive, some t)) ∧
    (∀ (cur : Option Tournament) (name : Option String) (dur : Option ℕ)
        (pool : Option ℚ) (now : ℕ) (t1 : Tournament),
        (tournamentStart cur name dur pool now).1 = .started t1 →
        t1.registrations = [] ∧ t1.scores = []) := by
  refine ⟨?_, ?_, ?_⟩
  · intro t name dur pool now ha
    simp [tournamentStart, ha]
  · intro t name dur pool now ha _
    simp [tournamentStart, ha]
  · intro cur name dur pool now t1 h
    have hnew : ∀ (nm : Option String) (du : Option ℕ) (po : Option ℚ) (nw : ℕ),
        (newTournament nm du po nw).registrations = []
          ∧ (newTournament nm du po nw).scores = [] := fun _ _ _ _ => ⟨rfl, rfl⟩
    cases cur with
    | none =>
      simp only [tournamentStart, StartOutcome.started.injEq] at h
      exact h ▸ hnew name dur pool now
    | some t =>
      simp only [tournamentStart] at h
      by_cases ha : t.active = true
      · rw [if_pos ha] at h
        exact absurd h (by simp)
      · rw [if_neg ha] at h
        simp only [StartOutcome.started.injEq] at h
        exact h ▸ hnew name dur pool now

/-- Witness for C8: an expired-but-unstopped tournament still blocks a new
start, and a start from the empty slot yields empty maps. -/
theorem tournament_start_exclusive_witness :
    (wTour.active = true ∧ wTour.endTime < 10) ∧
    tournamentStart (some wTour) none none none 10 = (.alreadyActive, some wTour) ∧
    ((tournamentStart none none none none 10).1 = .started (newTournament none none none 10) →
      (newTournament none none none 10).registrations = []
        ∧ (newTournament none none none 10).scores = []) :=
  ⟨⟨by decide, by decide⟩,
    tournament_start_exclusive.2.1 wTour none none none 10 (by decide) (by decide),
    fun h => tournament_start_exclusive.2.2 none none none none 10 _ h⟩

/-- Claim C10: in the tournament variant a score submission passing the
presence validation always increments the player's games counter and
stamps the last-game time — with no balance check and no minimum-points
threshold, whether or not a tournament is running or the wallet is
registered — and never changes the reward fields of the record. -/
theorem tournament_record_game_frame (r : PlayerRecord) (wallet : String)
    (pts : ℚ) (fs : Option ℚ) (cur : Option Tournament) (now : ℕ)
    (hw : wallet ≠ "") (hp : pts ≠ 0) :
    ∃ out, recordGameTournamentVariant r wallet pts fs cur now = some out ∧
      out.1.gamesPlayed = r.gamesPlayed + 1 ∧
      out.1.lastGameAt = some now ∧
      out.1.totalEarned = r.totalEarned ∧
      out.1.totalClaimed = r.totalClaimed ∧
      out.1.pendingRewards = r.pendingRewards ∧
      out.1.earnHistory = r.earnHistory := by
  unfold recordGameTournamentVariant
  rw [if_neg (by tauto)]
  exact ⟨_, rfl, rfl, rfl, rfl, rfl, rfl, rfl⟩

/-- Witness for C10: a practice submission with no tournament running. -/
theorem tournament_record_game_frame_witness :
    (("wz" : String) ≠ "" ∧ (77 : ℚ) ≠ 0) ∧
    (∃ out, recordGameTournamentVariant cRec "wz" 77 none none 4 = some out ∧
      out.1.gamesPlayed = cRec.gamesPlayed + 1 ∧
      out.1.lastGameAt = some 4 ∧
      out.1.totalEarned = cRec.totalEarned ∧
      out.1.totalClaimed = cRec.totalClaimed ∧
      out.1.pendingRewards = cRec.pendingRewards ∧
      out.1.earnHistory = cRec.earnHistory) :=
  ⟨⟨by decide, by decide⟩,
    tournament_record_game_frame cRec "wz" 77 none none 4 (by decide) (by decide)⟩

/-- Counterexample to claim C5 as stated: in the simulated one-phase
variant the claim request itself mutates the ledger — with pending 5 and no
amount supplied the handler immediately moves 5 into totalClaimed — even
though no confirmation phase has run. -/
theorem claim_request_mutates_in_sim_variant :
    cRec.totalClaimed = 0 ∧
    ((claimRewardsSim (some cRec) none 25000 "c9" 4).2.map fun r => r.totalClaimed)
      = some 5 := by
  refine ⟨by decide, by decide⟩

/-- Claim C5 (amended): the transaction-building build phase never mutates
the player record: on every path — authority missing, record missing, no
pending rewards, insufficient balance, unfunded or underfunded vault, or a
successfully built transaction — the record comes back exactly as it went
in; only the confirm phase mutates the ledger.  (The simulated one-phase
variant has no build phase and settles at claim time, see the
counterexample.) -/
theorem claim_build_never_mutates (hasAuth : Bool) (rOpt : Option PlayerRecord)
    (amt : Option ℚ) (bal : ℚ) (vault : Option ℤ) (dec : ℕ) :
    (claimBuildTx hasAuth rOpt amt bal vault dec).2 = rOpt := by
  unfold claimBuildTx
  cases hasAuth
  · rfl
  · cases rOpt with
    | none => rfl
    | some r =>
      simp only [Bool.true_eq_false, if_false]
      split
      · rfl
      · split
        · rfl
        · cases vault with
          | none => rfl
          | some v =>
            simp only
            split <;> rfl

/-- Counterexample to claim C2 as stated: in the transaction-building
variants a request for more than the pending balance is not rejected — with
pending 4 a requested amount of 10 silently resolves to the full pending
balance 4 and the build succeeds. -/
theorem overclaim_clamped_in_build_variant :
    rbRec.pendingRewards = 4 ∧ ¬ ((10 : ℚ) ≤ 4) ∧
    amountToClaimTx (some 10) rbRec.pendingRewards = 4 ∧
    (claimBuildTx true (some rbRec) (some 10) 25000 (some 100000000) 6).1 = .built 4 := by
  refine ⟨by decide, by decide, by decide, by decide⟩

/-- Claim C2 (amended): the simulated one-phase handler rejects an
over-request with an `INSUFFICIENT_PENDING` error and leaves the record
untouched, uses a positive in-range requested amount as-is and falls back
to the full pending balance when the amount is absent; the
transaction-building variants resolve the amount the same way for in-range
and absent requests but silently replace an over-request by the full
pending balance instead of rejecting it. -/
theorem claim_amount_resolution :
    (∀ (r : PlayerRecord) (a bal : ℚ) (claimId : String) (now : ℕ),
        0 < r.pendingRewards → MIN_HOLD_REQUIREMENT ≤ bal → r.pendingRewards < a →
        claimRewardsSim (some r) (some a) bal claimId now = (.insufficientPending, some r)) ∧
    (∀ (r : PlayerRecord) (a bal : ℚ) (claimId : String) (now : ℕ),
        0 < r.pendingRewards → MIN_HOLD_REQUIREMENT ≤ bal → 0 < a → a ≤ r.pendingRewards →
        (claimRewardsSim (some r) (some a) bal claimId now).1 = .claimed a) ∧
    (∀ (r : PlayerRecord) (bal : ℚ) (claimId : String) (now : ℕ),
        0 < r.pendingRewards → MIN_HOLD_REQUIREMENT ≤ bal →
        (claimRewardsSim (some r) none bal claimId now).1 = .claimed r.pendingRewards) ∧
    (∀ (pending a : ℚ), 0 < a → a ≤ pending → amountToClaimTx (some a) pending = a) ∧
    (∀ (pending a : ℚ), pending < a → amountToClaimTx (some a) pending = pending) ∧
    (∀ (pending : ℚ), amountToClaimTx none pending = pending) := by
  refine ⟨?_, ?_, ?_, ?_, ?_, ?_⟩
  · intro r a bal claimId now hpend hbal hover
    simp [claimRewardsSim, not_le.mpr hpend, not_lt.mpr hbal, lt_trans hpend hover, hover]
  · intro r a bal claimId now hpend hbal hpos hle
    simp [claimRewardsSim, not_le.mpr hpend, not_lt.mpr hbal, hpos, not_lt.mpr hle]
  · intro r bal claimId now hpend hbal
    simp [claimRewardsSim, not_le.mpr hpend, not_lt.mpr hbal]
  · intro pending a hpos hle
    simp [amountToClaimTx, hpos, hle]
  · intro pending a hover
    simp [amountToClaimTx, not_le.mpr hover]
  · intro pending
    rfl

/-- Witness for C2 at concrete inputs: over-request 9 against pending 5. -/
theorem claim_amount_resolution_witness :
    ((0 : ℚ) < cRec.pendingRewards ∧ MIN_HOLD_REQUIREMENT ≤ (25000 : ℚ)
      ∧ cRec.pendingRewards < 9) ∧
    claimRewardsSim (some cRec) (some 9) 25000 "c2" 3 = (.insufficientPending, some cRec) :=
  ⟨⟨by decide, by decide, by decide⟩,
    claim_amount_resolution.1 cRec 9 25000 "c2" 3 (by decide) (by decide) (by decide)⟩

/-- Claim C3: over any sequence of successful earn operations (scored games
or settled prizes, with no intervening claims) the earned total grows by
exactly the sum of the credited amounts, the claimed total is untouched,
and the pending-equals-earned-minus-claimed invariant is preserved; since
every prefix of such a sequence is itself such a sequence, the equations
hold after every prefix. -/
theorem recordEarn_sum_invariant :
    ∀ (ops : List EarnOp) (r r1 : PlayerRecord),
      applyEarnOps r ops = some r1 →
      r1.totalEarned = r.totalEarned + (ops.map EarnOp.credit).sum ∧
      r1.totalClaimed = r.totalClaimed ∧
      (r.pendingRewards = r.totalEarned - r.totalClaimed →
        r1.pendingRewards = r1.totalEarned - r1.totalClaimed) := by
  intro ops
  induction ops with
  | nil =>
    intro r r1 h
    obtain rfl : r = r1 := by simpa [applyEarnOps] using h
    exact ⟨by simp, rfl, fun hi => hi⟩
  | cons op ops ih =>
    intro r r1 h
    rw [applyEarnOps] at h
    rcases hop : applyEarnOp r op with _ | r2
    · rw [hop] at h; cases h
    · rw [hop] at h
      have step : r2.totalEarned = r.totalEarned + op.credit ∧
          r2.totalClaimed = r.totalClaimed ∧
          r2.pendingRewards = r.pendingRewards + op.credit := by
        cases op with
        | game points bal sessionId now =>
          simp only [applyEarnOp, recordGameEarn] at hop
          split_ifs at hop with h1 h2 h3
          obtain rfl : _ = r2 := Option.some_inj.mp hop
          exact ⟨rfl, rfl, rfl⟩
        | prize amount bestScore tid tname rank now =>
          simp only [applyEarnOp, creditPrize] at hop
          obtain rfl : _ = r2 := Option.some_inj.mp hop
          exact ⟨rfl, rfl, rfl⟩
      obtain ⟨ihE, ihC, ihP⟩ := ih r2 r1 h
      refine ⟨?_, ?_, ?_⟩
      · rw [ihE, step.1]; simp [add_assoc]
      · rw [ihC, step.2.1]
      · intro hi
        exact ihP (by rw [step.2.2, step.1, step.2.1, hi]; ring)

/-- Witness for C3: a scored game of 3000 points then a prize of 10,
applied to a fresh record. -/
theorem recordEarn_sum_invariant_witness :
    applyEarnOps (freshPlayerRecord "w3") wOps = some wRec3 ∧
    (wRec3.totalEarned = (freshPlayerRecord "w3").totalEarned + (wOps.map EarnOp.credit).sum ∧
     wRec3.totalClaimed = (freshPlayerRecord "w3").totalClaimed ∧
     ((freshPlayerRecord "w3").pendingRewards
          = (freshPlayerRecord "w3").totalEarned - (freshPlayerRecord "w3").totalClaimed →
       wRec3.pendingRewards = wRec3.totalEarned - wRec3.totalClaimed)) :=
  ⟨by decide, recordEarn_sum_invariant wOps (freshPlayerRecord "w3") wRec3 (by decide)⟩

/-- The unclaimed sum of the empty history is zero. -/
theorem unclaimedSum_nil : unclaimedSum [] = 0 := rfl

theorem unclaimedSum_cons (e : EarnEntry) (l : List EarnEntry) :
    unclaimedSum (e :: l)
      = (if e.claimed = false then e.chumEarned else 0) + unclaimedSum l := by
  by_cases h : e.claimed = false <;> simp [unclaimedSum, List.filter_cons, h]

theorem unclaimedSum_append (l1 l2 : List EarnEntry) :
    unclaimedSum (l1 ++ l2) = unclaimedSum l1 + unclaimedSum l2 := by
  simp [unclaimedSum, List.filter_append]

theorem markClaimedSplitWalk_nonpos (cid : String) (now : ℕ) :
    ∀ (l : List EarnEntry) (a : ℚ), a ≤ 0 →
      markClaimedSplitWalk cid now l a = (l, a) := by
  intro l
  induction l with
  | nil => intro a _; rfl
  | cons e rest ih =>
    intro a ha
    rw [markClaimedSplitWalk, if_neg (fun hc => absurd hc.2 (not_lt.mpr ha))]
    simp [ih a ha]

theorem splitWalk_unclaimedSum (cid : String) (now : ℕ) :
    ∀ (l : List EarnEntry) (a : ℚ),
      (∀ e ∈ l, e.claimed = false → 0 < e.chumEarned) →
      0 < a → a ≤ unclaimedSum l →
      unclaimedSum (markClaimedSplitWalk cid now l a).1 = unclaimedSum l - a := by
  intro l
  induction l with
  | nil =>
    intro a _ hpos hle
    rw [unclaimedSum_nil] at hle
    linarith
  | cons e rest ih =>
    intro a hmem hpos hle
    have hrest : ∀ e2 ∈ rest, e2.claimed = false → 0 < e2.chumEarned :=
      fun e2 he2 => hmem e2 (List.mem_cons_of_mem _ he2)
    rw [markClaimedSplitWalk]
    by_cases hcl : e.claimed = false
    · rw [if_pos ⟨hcl, hpos⟩]
      have hconsum : unclaimedSum (e :: rest) = e.chumEarned + unclaimedSum rest := by
        rw [unclaimedSum_cons, if_pos hcl]
      by_cases hle2 : e.chumEarned ≤ a
      · rw [if_pos hle2]
        rcases eq_or_lt_of_le hle2 with heq | hlt
        · rw [markClaimedSplitWalk_nonpos cid now rest (a - e.chumEarned) (by linarith)]
          simp only [unclaimedSum_cons, markFullSim, hconsum]
          simp
          linarith
        · have h2 : a - e.chumEarned ≤ unclaimedSum rest := by
            rw [hconsum] at hle; linarith
          have hres := ih (a - e.chumEarned) hrest (by linarith) h2
          simp only [unclaimedSum_cons, markFullSim]
          simp only [Bool.true_eq_false, if_false, hcl, if_true]
          rw [hres]
          simp [hcl]
          ring
      · rw [if_neg hle2]
        simp only [unclaimedSum_cons, unclaimedSum_append, unclaimedSum_nil]
        simp [splitOriginal, remainderEntry, hcl]
        ring
    · rw [if_neg (fun hc => hcl hc.1)]
      have hcl2 : e.claimed = true := by
        cases h : e.claimed
        · exact absurd h hcl
        · rfl
      have hle2 : a ≤ unclaimedSum rest := by
        rw [unclaimedSum_cons, hcl2] at hle
        simpa using hle
      have hres := ih a hrest hpos hle2
      simp only [unclaimedSum_cons, hcl2]
      simp
      rw [hres]

theorem splitWalk_fifoShape (cid : String) (now : ℕ) :
    ∀ (l : List EarnEntry) (a : ℚ), ∃ k,
      (∀ e ∈ (markClaimedSplitWalk cid now l a).1.take k, e.claimed = true) ∧
      ((markClaimedSplitWalk cid now l a).1.drop k = l.drop k ∨
        ∃ rem, (markClaimedSplitWalk cid now l a).1.drop k = l.drop k ++ [rem] ∧
          rem.claimed = false ∧ rem.isRemainder = true) := by
  intro l
  induction l with
  | nil =>
    intro a
    exact ⟨0, by simp [markClaimedSplitWalk], Or.inl rfl⟩
  | cons e rest ih =>
    intro a
    rw [markClaimedSplitWalk]
    by_cases hc : e.claimed = false ∧ 0 < a
    · rw [if_pos hc]
      by_cases hle : e.chumEarned ≤ a
      · rw [if_pos hle]
        obtain ⟨k, hk1, hk2⟩ := ih (a - e.chumEarned)
        refine ⟨k + 1, ?_, ?_⟩
        · intro e2 he2
          simp only [List.take_succ_cons] at he2
          cases he2 with
          | head => rfl
          | tail _ h => exact hk1 e2 h
        · simpa only [List.drop_succ_cons] using hk2
      · rw [if_neg hle]
        refine ⟨1, ?_, Or.inr ⟨remainderEntry a e, rfl, rfl, rfl⟩⟩
        intro e2 he2
        simp only [List.take_succ_cons, List.take_zero] at he2
        cases he2 with
        | head => rfl
        | tail _ h => cases h
    · rw [if_neg hc]
      by_cases hcl : e.claimed = true
      · obtain ⟨k, hk1, hk2⟩ := ih a
        refine ⟨k + 1, ?_, ?_⟩
        · intro e2 he2
          simp only [List.take_succ_cons] at he2
          cases he2 with
          | head => exact hcl
          | tail _ h => exact hk1 e2 h
        · simpa only [List.drop_succ_cons] using hk2
      · have ha : a ≤ 0 := by
          by_contra hpos
          exact hc ⟨by simpa using hcl, lt_of_not_le hpos⟩
        rw [markClaimedSplitWalk_nonpos cid now rest a ha]
        exact ⟨0, by simp, Or.inl rfl⟩

/-- Counterexample to claim C1 as stated: the mark-claimed walk that runs
on confirmation (the two-phase confirm handlers) does not split.  On the
example history of values 5, 3, 8 with a confirmed amount of 6 it marks
only the first entry, stops at the second without splitting it, appends no
remainder entry, and records no claimedAmount anywhere. -/
theorem confirm_walk_does_not_split :
    (confirmClaimSettle exRec (some 6) "cid" "sig" 7).earnHistory.map (fun e => e.claimed)
      = [true, false, false] ∧
    (confirmClaimSettle exRec (some 6) "cid" "sig" 7).earnHistory.length = 3 ∧
    (∀ e ∈ (confirmClaimSettle exRec (some 6) "cid" "sig" 7).earnHistory,
      e.isRemainder = false ∧ e.claimedAmount = none) ∧
    (confirmClaimSettle exRec (some 6) "cid" "sig" 7).pendingRewards
      = exRec.pendingRewards - 6 := by
  refine ⟨by decide, by decide, by decide, by decide⟩

/-- Claim C1 (amended): the split-on-partial-claim behaviour belongs to the
walk of the simulated one-phase claim handler, which settles at claim time
(the confirm-phase walk stops at a partially coverable entry without
splitting, see the counterexample).  For that split walk: (1) whenever the
claimed amount is positive and at most the unclaimed value of the history
(entries having positive values), the unclaimed value drops by exactly the
claimed amount; (2) the walk is FIFO: the output history is an all-claimed
prefix followed by an untouched suffix of the input, possibly with one
synthesized unclaimed remainder entry appended at the end; and (3) on the
example of values 5, 3, 8 (oldest first) a claim of 6 marks entry one fully
claimed, splits entry two into claimedAmount 1 and remainingAmount 2,
appends a remainder entry of value 2, and decreases pendingRewards by
exactly 6. -/
theorem claim_fifo_split_settlement :
    (∀ (cid : String) (now : ℕ) (l : List EarnEntry) (a : ℚ),
        (∀ e ∈ l, e.claimed = false → 0 < e.chumEarned) →
        0 < a → a ≤ unclaimedSum l →
        unclaimedSum (markClaimedSplitWalk cid now l a).1 = unclaimedSum l - a) ∧
    (∀ (cid : String) (now : ℕ) (l : List EarnEntry) (a : ℚ), ∃ k,
        (∀ e ∈ (markClaimedSplitWalk cid now l a).1.take k, e.claimed = true) ∧
        ((markClaimedSplitWalk cid now l a).1.drop k = l.drop k ∨
          ∃ rem, (markClaimedSplitWalk cid now l a).1.drop k = l.drop k ++ [rem] ∧
            rem.claimed = false ∧ rem.isRemainder = true)) ∧
    claimRewardsSim (some exRec) (some 6) 25000 "cid" 7 = (.claimed 6, some exRecAfter) ∧
    (splitOriginal "cid" 7 1 entB).claimedAmount = some 1 ∧
    (splitOriginal "cid" 7 1 entB).remainingAmount = some 2 ∧
    (remainderEntry 1 entB).chumEarned = 2 ∧
    (remainderEntry 1 entB).isRemainder = true ∧
    exRecAfter.pendingRewards = exRec.pendingRewards - 6 := by
  refine ⟨fun cid now => splitWalk_unclaimedSum cid now,
          fun cid now => splitWalk_fifoShape cid now,
          by decide, by decide, by decide, by decide, by decide, by decide⟩

/-- Witness for C1: the conservation part applied to a one-entry history. -/
theorem claim_fifo_split_settlement_witness :
    ((∀ e ∈ [entA], e.claimed = false → 0 < e.chumEarned) ∧ (0 : ℚ) < 5
      ∧ (5 : ℚ) ≤ unclaimedSum [entA]) ∧
    unclaimedSum (markClaimedSplitWalk "cw" 0 [entA] 5).1 = unclaimedSum [entA] - 5 :=
  ⟨⟨by decide, by decide, by decide⟩,
    claim_fifo_split_settlement.1 "cw" 0 [entA] 5 (by decide) (by decide) (by decide)⟩
/-- Floor is monotone, stated over the executable floor. -/
theorem floorQ_mono (x y : ℚ) (h : x ≤ y) :
    ((Rat.floor x : ℤ) : ℚ) ≤ ((Rat.floor y : ℤ) : ℚ) := by
  rw [ratFloor_intFloor, ratFloor_intFloor]
  exact_mod_cast Int.floor_mono h

theorem one_le_floorQ (x : ℚ) (h : 1 ≤ x) : (1 : ℚ) ≤ ((Rat.floor x : ℤ) : ℚ) := by
  rw [ratFloor_intFloor]
  exact_mod_cast Int.le_floor.mpr (by exact_mod_cast h)

theorem floorQ_pos (x : ℚ) (h : 1 ≤ x) : (0 : ℚ) < ((Rat.floor x : ℤ) : ℚ) :=
  lt_of_lt_of_le zero_lt_one (one_le_floorQ x h)


theorem prizeForRank_eq_1 (pool : ℚ) (n : ℕ) :
    prizeForRank pool n 1 = ((Rat.floor (pool * 0.195) : ℤ) : ℚ) := rfl

theorem prizeForRank_eq_2 (pool : ℚ) (n : ℕ) :
    prizeForRank pool n 2 = ((Rat.floor (pool * 0.104) : ℤ) : ℚ) := rfl

theorem prizeForRank_eq_3 (pool : ℚ) (n : ℕ) :
    prizeForRank pool n 3 = ((Rat.floor (pool * 0.065) : ℤ) : ℚ) := rfl

theorem prizeForRank_eq_4 (pool : ℚ) (n : ℕ) :
    prizeForRank pool n 4 = ((Rat.floor (pool * 0.039) : ℤ) : ℚ) := rfl

theorem prizeForRank_eq_5 (pool : ℚ) (n : ℕ) :
    prizeForRank pool n 5 = ((Rat.floor (pool * 0.026) : ℤ) : ℚ) := rfl

theorem prizeForRank_6_10 (pool : ℚ) (n rank : ℕ) (h6 : 6 ≤ rank) (h10 : rank ≤ 10) :
    prizeForRank pool n rank = ((Rat.floor (pool * 0.013) : ℤ) : ℚ) := by
  have c1 : ¬ rank = 1 := by omega
  have c2 : ¬ rank = 2 := by omega
  have c3 : ¬ rank = 3 := by omega
  have c4 : ¬ rank = 4 := by omega
  have c5 : ¬ rank = 5 := by omega
  unfold prizeForRank
  rw [if_neg c1, if_neg c2, if_neg c3, if_neg c4, if_neg c5, if_pos h10]

theorem prizeForRank_11_25 (pool : ℚ) (n rank : ℕ) (h1 : 11 ≤ rank) (h2 : rank ≤ 25) :
    prizeForRank pool n rank = ((Rat.floor (pool * 0.0052) : ℤ) : ℚ) := by
  have c1 : ¬ rank = 1 := by omega
  have c2 : ¬ rank = 2 := by omega
  have c3 : ¬ rank = 3 := by omega
  have c4 : ¬ rank = 4 := by omega
  have c5 : ¬ rank = 5 := by omega
  have c10 : ¬ rank ≤ 10 := by omega
  unfold prizeForRank
  rw [if_neg c1, if_neg c2, if_neg c3, if_neg c4, if_neg c5, if_neg c10, if_pos h2]

theorem prizeForRank_26_50 (pool : ℚ) (n rank : ℕ) (h1 : 26 ≤ rank) (h2 : rank ≤ 50) :
    prizeForRank pool n rank = ((Rat.floor (pool * 0.00325) : ℤ) : ℚ) := by
  have c1 : ¬ rank = 1 := by omega
  have c2 : ¬ rank = 2 := by omega
  have c3 : ¬ rank = 3 := by omega
  have c4 : ¬ rank = 4 := by omega
  have c5 : ¬ rank = 5 := by omega
  have c10 : ¬ rank ≤ 10 := by omega
  have c25 : ¬ rank ≤ 25 := by omega
  unfold prizeForRank
  rw [if_neg c1, if_neg c2, if_neg c3, if_neg c4, if_neg c5, if_neg c10, if_neg c25,
    if_pos h2]

theorem prizeForRank_51_100 (pool : ℚ) (n rank : ℕ) (h1 : 51 ≤ rank) (h2 : rank ≤ 100) :
    prizeForRank pool n rank = ((Rat.floor (pool * 0.00195) : ℤ) : ℚ) := by
  have c1 : ¬ rank = 1 := by omega
  have c2 : ¬ rank = 2 := by omega
  have c3 : ¬ rank = 3 := by omega
  have c4 : ¬ rank = 4 := by omega
  have c5 : ¬ rank = 5 := by omega
  have c10 : ¬ rank ≤ 10 := by omega
  have c25 : ¬ rank ≤ 25 := by omega
  have c50 : ¬ rank ≤ 50 := by omega
  unfold prizeForRank
  rw [if_neg c1, if_neg c2, if_neg c3, if_neg c4, if_neg c5, if_neg c10, if_neg c25,
    if_neg c50, if_pos h2]

theorem prizeForRank_midBucket (pool : ℚ) (n rank : ℕ) (h1 : 101 ≤ rank)
    (hc : (rank : ℤ) ≤ Rat.ceil ((n : ℚ) * 0.75)) :
    prizeForRank pool n rank = ((Rat.floor (pool * 0.00065) : ℤ) : ℚ) := by
  have c1 : ¬ rank = 1 := by omega
  have c2 : ¬ rank = 2 := by omega
  have c3 : ¬ rank = 3 := by omega
  have c4 : ¬ rank = 4 := by omega
  have c5 : ¬ rank = 5 := by omega
  have c10 : ¬ rank ≤ 10 := by omega
  have c25 : ¬ rank ≤ 25 := by omega
  have c50 : ¬ rank ≤ 50 := by omega
  have c100 : ¬ rank ≤ 100 := by omega
  unfold prizeForRank
  rw [if_neg c1, if_neg c2, if_neg c3, if_neg c4, if_neg c5, if_neg c10, if_neg c25,
    if_neg c50, if_neg c100, if_pos hc]

theorem prizeForRank_lastBucket (pool : ℚ) (n rank : ℕ) (h1 : 101 ≤ rank)
    (hc : ¬ ((rank : ℤ) ≤ Rat.ceil ((n : ℚ) * 0.75))) :
    prizeForRank pool n rank = max 1 ((Rat.floor (pool * 0.0001) : ℤ) : ℚ) := by
  have c1 : ¬ rank = 1 := by omega
  have c2 : ¬ rank = 2 := by omega
  have c3 : ¬ rank = 3 := by omega
  have c4 : ¬ rank = 4 := by omega
  have c5 : ¬ rank = 5 := by omega
  have c10 : ¬ rank ≤ 10 := by omega
  have c25 : ¬ rank ≤ 25 := by omega
  have c50 : ¬ rank ≤ 50 := by omega
  have c100 : ¬ rank ≤ 100 := by omega
  unfold prizeForRank
  rw [if_neg c1, if_neg c2, if_neg c3, if_neg c4, if_neg c5, if_neg c10, if_neg c25,
    if_neg c50, if_neg c100, if_neg hc]

theorem prizeForRank_pos (pool : ℚ) (hp : 10000 ≤ pool) (n rank : ℕ) (hr : 1 ≤ rank) :
    0 < prizeForRank pool n rank := by
  rcases Nat.lt_or_ge rank 2 with h | h
  · obtain rfl : rank = 1 := by omega
    rw [prizeForRank_eq_1]; exact floorQ_pos _ (by linarith)
  rcases Nat.lt_or_ge rank 3 with h2 | h2
  · obtain rfl : rank = 2 := by omega
    rw [prizeForRank_eq_2]; exact floorQ_pos _ (by linarith)
  rcases Nat.lt_or_ge rank 4 with h3 | h3
  · obtain rfl : rank = 3 := by omega
    rw [prizeForRank_eq_3]; exact floorQ_pos _ (by linarith)
  rcases Nat.lt_or_ge rank 5 with h4 | h4
  · obtain rfl : rank = 4 := by omega
    rw [prizeForRank_eq_4]; exact floorQ_pos _ (by linarith)
  rcases Nat.lt_or_ge rank 6 with h5 | h5
  · obtain rfl : rank = 5 := by omega
    rw [prizeForRank_eq_5]; exact floorQ_pos _ (by linarith)
  rcases Nat.lt_or_ge rank 11 with h6 | h6
  · rw [prizeForRank_6_10 pool n rank (by omega) (by omega)]
    exact floorQ_pos _ (by linarith)
  rcases Nat.lt_or_ge rank 26 with h7 | h7
  · rw [prizeForRank_11_25 pool n rank (by omega) (by omega)]
    exact floorQ_pos _ (by linarith)
  rcases Nat.lt_or_ge rank 51 with h8 | h8
  · rw [prizeForRank_26_50 pool n rank (by omega) (by omega)]
    exact floorQ_pos _ (by linarith)
  rcases Nat.lt_or_ge rank 101 with h9 | h9
  · rw [prizeForRank_51_100 pool n rank (by omega) (by omega)]
    exact floorQ_pos _ (by linarith)
  by_cases hc : ((rank : ℕ) : ℤ) ≤ Rat.ceil ((n : ℚ) * 0.75)
  · rw [prizeForRank_midBucket pool n rank (by omega) hc]
    exact floorQ_pos _ (by linarith)
  · rw [prizeForRank_lastBucket pool n rank (by omega) hc]
    exact lt_of_lt_of_le zero_lt_one (le_max_left 1 _)

theorem prizeForRank_antitone (pool : ℚ) (hp : 10000 ≤ pool) (n rank : ℕ) (hr : 1 ≤ rank) :
    prizeForRank pool n (rank + 1) ≤ prizeForRank pool n rank := by
  have h0 : (0:ℚ) ≤ pool := by linarith
  have mono : ∀ c1 c2 : ℚ, c1 ≤ c2 →
      ((Rat.floor (pool * c1) : ℤ) : ℚ) ≤ ((Rat.floor (pool * c2) : ℤ) : ℚ) :=
    fun c1 c2 h => floorQ_mono _ _ (mul_le_mul_of_nonneg_left h h0)
  rcases eq_or_lt_of_le hr with h1 | h1
  · rw [← h1, prizeForRank_eq_1, prizeForRank_eq_2]
    exact mono _ _ (by norm_num)
  · rcases Nat.lt_or_ge rank 3 with h2 | h2
    · obtain rfl : rank = 2 := by omega
      rw [prizeForRank_eq_2, prizeForRank_eq_3]
      exact mono _ _ (by norm_num)
    · rcases Nat.lt_or_ge rank 4 with h3 | h3
      · obtain rfl : rank = 3 := by omega
        rw [prizeForRank_eq_3, prizeForRank_eq_4]
        exact mono _ _ (by norm_num)
      · rcases Nat.lt_or_ge rank 5 with h4 | h4
        · obtain rfl : rank = 4 := by omega
          rw [prizeForRank_eq_4, prizeForRank_eq_5]
          exact mono _ _ (by norm_num)
        · rcases Nat.lt_or_ge rank 6 with h5 | h5
          · obtain rfl : rank = 5 := by omega
            rw [prizeForRank_eq_5, prizeForRank_6_10 pool n 6 (by omega) (by omega)]
            exact mono _ _ (by norm_num)
          · rcases Nat.lt_or_ge rank 10 with h6 | h6
            · rw [prizeForRank_6_10 pool n rank (by omega) (by omega),
                prizeForRank_6_10 pool n (rank + 1) (by omega) (by omega)]
            · rcases Nat.lt_or_ge rank 11 with h7 | h7
              · obtain rfl : rank = 10 := by omega
                rw [prizeForRank_6_10 pool n 10 (by omega) (by omega),
                  prizeForRank_11_25 pool n 11 (by omega) (by omega)]
                exact mono _ _ (by norm_num)
              · rcases Nat.lt_or_ge rank 25 with h8 | h8
                · rw [prizeForRank_11_25 pool n rank (by omega) (by omega),
                    prizeForRank_11_25 pool n (rank + 1) (by omega) (by omega)]
                · rcases Nat.lt_or_ge rank 26 with h9 | h9
                  · obtain rfl : rank = 25 := by omega
                    rw [prizeForRank_11_25 pool n 25 (by omega) (by omega),
                      prizeForRank_26_50 pool n 26 (by omega) (by omega)]
                    exact mono _ _ (by norm_num)
                  · rcases Nat.lt_or_ge rank 50 with h10 | h10
                    · rw [prizeForRank_26_50 pool n rank (by omega) (by omega),
                        prizeForRank_26_50 pool n (rank + 1) (by omega) (by omega)]
                    · rcases Nat.lt_or_ge rank 51 with h11 | h11
                      · obtain rfl : rank = 50 := by omega
                        rw [prizeForRank_26_50 pool n 50 (by omega) (by omega),
                          prizeForRank_51_100 pool n 51 (by omega) (by omega)]
                        exact mono _ _ (by norm_num)
                      · rcases Nat.lt_or_ge rank 100 with h12 | h12
                        · rw [prizeForRank_51_100 pool n rank (by omega) (by omega),
                            prizeForRank_51_100 pool n (rank + 1) (by omega) (by omega)]
                        · rcases Nat.lt_or_ge rank 101 with h13 | h13
                          · obtain rfl : rank = 100 := by omega
                            by_cases hc : ((101 : ℕ) : ℤ) ≤ Rat.ceil ((n : ℚ) * 0.75)
                            · rw [prizeForRank_51_100 pool n 100 (by omega) (by omega),
                                prizeForRank_midBucket pool n 101 (by omega) hc]
                              exact mono _ _ (by norm_num)
                            · rw [prizeForRank_51_100 pool n 100 (by omega) (by omega),
                                prizeForRank_lastBucket pool n 101 (by omega) hc]
                              refine max_le (one_le_floorQ _ (by linarith)) (mono _ _ (by norm_num))
                          · by_cases hc1 : ((rank : ℕ) : ℤ) ≤ Rat.ceil ((n : ℚ) * 0.75)
                            · by_cases hc2 : (((rank + 1 : ℕ)) : ℤ) ≤ Rat.ceil ((n : ℚ) * 0.75)
                              · rw [prizeForRank_midBucket pool n rank (by omega) hc1,
                                  prizeForRank_midBucket pool n (rank + 1) (by omega) hc2]
                              · rw [prizeForRank_midBucket pool n rank (by omega) hc1,
                                  prizeForRank_lastBucket pool n (rank + 1) (by omega) hc2]
                                refine max_le (one_le_floorQ _ (by linarith)) (mono _ _ (by norm_num))
                            · have hc2 : ¬ (((rank + 1 : ℕ)) : ℤ) ≤ Rat.ceil ((n : ℚ) * 0.75) := by
                                intro h
                                exact hc1 (le_trans (by push_cast; omega) h)
                              rw [prizeForRank_lastBucket pool n rank (by omega) hc1,
                                prizeForRank_lastBucket pool n (rank + 1) (by omega) hc2]

theorem buildWinners_chain (pool : ℚ) (hp : 10000 ≤ pool) (total : ℕ) :
    ∀ (l : List RankedEntry) (rank : ℕ), 1 ≤ rank →
      List.Chain' (fun a b => b.prize ≤ a.prize) (buildWinners pool total rank l) ∧
      ∀ w ∈ buildWinners pool total rank l, 0 < w.prize := by
  intro l
  induction l with
  | nil => intro rank _; exact ⟨List.chain'_nil, by simp [buildWinners]⟩
  | cons e rest ih =>
    intro rank hr
    obtain ⟨ihc, ihm⟩ := ih (rank + 1) (by omega)
    refine ⟨?_, ?_⟩
    · rw [buildWinners]
      apply List.chain'_cons'.mpr
      refine ⟨?_, ihc⟩
      intro b hb
      cases rest with
      | nil => simp [buildWinners] at hb
      | cons e2 rest2 =>
        rw [buildWinners] at hb
        simp only [Option.mem_def, List.head?_cons, Option.some.injEq] at hb
        rw [← hb]
        exact prizeForRank_antitone pool hp total rank hr
    · intro w hw
      rw [buildWinners] at hw
      cases hw with
      | head => exact prizeForRank_pos pool hp total rank hr
      | tail _ h => exact ihm w h

/-- Claim C4 (amended): for every tournament whose prize pool is at least
10000 units (so that even the flat participation fractions floor to at
least one unit), the computed result set has non-increasing prizes down the
ranking and a strictly positive prize for every ranked participant.  For
smaller pools the floors can hit zero and the guaranteed participation
minimum of one unit can exceed them, breaking both properties (see the
counterexample). -/
theorem tournament_prize_tiering (t : Tournament) (hp : 10000 ≤ t.prizePool) :
    List.Chain' (fun a b => b.prize ≤ a.prize) (calculateTournamentResults t).winners ∧
    ∀ w ∈ (calculateTournamentResults t).winners, 0 < w.prize :=
  buildWinners_chain t.prizePool hp (getTopScores t 99999).length (getTopScores t 99999) 1 le_rfl

/-- Counterexample to claim C4 as stated: with a prize pool of 4 units the
sole ranked player receives a prize of 0 — the claimed guarantee of a
nonzero prize for every ranked participant fails for small pools. -/
theorem tiny_pool_breaks_nonzero_prize :
    (calculateTournamentResults tinyPoolTour).totalPlayers = 1 ∧
    ((calculateTournamentResults tinyPoolTour).winners.map fun w => w.prize) = [0] := by
  refine ⟨by decide, by decide⟩

/-- Witness for C4 at the example tournament with the stock pool. -/
theorem tournament_prize_tiering_witness :
    (10000 : ℚ) ≤ wTour.prizePool ∧
    (List.Chain' (fun a b => b.prize ≤ a.prize) (calculateTournamentResults wTour).winners ∧
     ∀ w ∈ (calculateTournamentResults wTour).winners, 0 < w.prize) :=
  ⟨by decide, tournament_prize_tiering wTour (by decide)⟩
